import Mathlib

/-!
# Verification of the Scheduling-ai query pipeline

Shallow embedding of the core query pipeline of the Scheduling-ai backend:

* `backend/routes/ollama.py` — the `/api/ollama/query` route: prompt building,
  response interpretation (JSON change-list extraction) and the mutation
  applier `apply_schedule_updates`;
* `backend/models.py` — the `Shift` model with its `validate_end_time`
  validator;
* `backend/utils/nlu.py` — the `NLU.extract_dates` entity extraction;
* `backend/utils/rag_helpers.py` — the month-level aggregation of
  `get_shifts_for_month`.

Timestamps are modelled as minutes on a linear timeline: a calendar day is
mapped to its serial day number (proleptic Gregorian, via the standard
days-from-civil computation) and a datetime to `day * 1440 + hour * 60`.
This encoding is injective and order-preserving, and `date + timedelta(days=1)`
becomes `day + 1`, which is all the source code uses for its comparisons.
-/

namespace SchedulingAi

/-! ## Calendar arithmetic (`datetime.strptime(date_str, "%Y-%m-%d")`) -/

/-- Leap-year test of the Gregorian calendar, as Python's `calendar.isleap`. -/
def isLeapYear (y : Nat) : Bool :=
  (y % 4 == 0 && y % 100 != 0) || (y % 400 == 0)

/-- Number of days of month `m` in year `y` (1-based month). -/
def daysInMonth (y m : Nat) : Nat :=
  if m = 2 then (if isLeapYear y then 29 else 28)
  else if m = 4 ∨ m = 6 ∨ m = 9 ∨ m = 11 then 30
  else 31

/-- Serial day number of the civil date `y-m-d` (proleptic Gregorian),
    restricted to the positive years the `%Y` directive accepts. -/
def daysFromCivil (y m d : Nat) : Nat :=
  let y' := if m ≤ 2 then y - 1 else y
  let era := y' / 400
  let yoe := y' % 400
  let mp := (m + 9) % 12
  let doy := (153 * mp + 2) / 5 + d - 1
  let doe := yoe * 365 + yoe / 4 - yoe / 100 + doy
  era * 146097 + doe

/-- A datetime on the minute timeline: hour `h` of serial day `day`. -/
def mkTime (day h : Nat) : Nat :=
  day * 1440 + h * 60

/-- One component of a `"%Y-%m-%d"` date string: non-empty, all digits,
    at most `width` characters (the greedy bound of the `strptime`
    directive), read as a decimal number. -/
def strptimeField (cs : List Char) (width : Nat) : Option Nat :=
  if cs.isEmpty then none
  else if !(cs.all Char.isDigit) then none
  else if width < cs.length then none
  else some (cs.foldl (fun n c => n * 10 + (c.toNat - 48)) 0)

/-- Split a character list on the dash separator (the shape `%Y-%m-%d`
    imposes on its input). -/
def splitDash : List Char → List (List Char)
  | [] => [[]]
  | c :: rest =>
    if c = '-' then [] :: splitDash rest
    else
      match splitDash rest with
      | g :: gs => (c :: g) :: gs
      | [] => [[c]]

/-- `datetime.strptime(date_str, "%Y-%m-%d")`, reduced to the serial day
    number of the parsed date; `none` models the `ValueError` the source
    catches.  Mirrors `strptime`: three dash-separated digit groups, year up
    to four digits, month `1..12`, day `1..days_in_month`. -/
def parseDateYMD (s : String) : Option Nat :=
  match splitDash s.data with
  | [ys, ms, ds] =>
    match strptimeField ys 4, strptimeField ms 2, strptimeField ds 2 with
    | some y, some m, some d =>
      if 1 ≤ m ∧ m ≤ 12 ∧ 1 ≤ d ∧ d ≤ daysInMonth y m then
        some (daysFromCivil y m d)
      else none
    | _, _, _ => none
  | _ => none

/-! ## Data model: `Employee`, `Shift` (backend/models.py) -/

/-- The slice of `Employee` the mutation applier reads: identity and display
    name (`Employee.query.filter_by(name=emp_name)`). -/
structure Employee where
  id : Nat
  name : String
deriving DecidableEq, Repr

/-- The slice of `Shift` the mutation applier reads and writes:
    `employee_id`, `start_time`, `end_time` (minutes on the timeline). -/
structure Shift where
  employee_id : Nat
  start_time : Nat
  end_time : Nat
deriving DecidableEq, Repr

/-- `Shift.validate_end_time` (backend/models.py lines 138-163): comparing
    the would-be start and end of a shift, the write is rejected
    (`ValueError`) whenever `end <= start`. -/
def validate_end_time (start_time end_time : Nat) : Except String Unit :=
  if end_time ≤ start_time then .error "End time must be after start time."
  else .ok ()

/-- SQLAlchemy fires `validate_end_time` attribute by attribute: assigning
    `start_time` first compares the new start with the old end (a raise
    leaves the shift untouched), then assigning `end_time` compares the new
    end with the already-updated start (a raise would leave the start
    already overwritten).  The raised `ValueError` is swallowed by the
    per-item `except` of `apply_schedule_updates`. -/
def setShiftTimes (sh : Shift) (ns ne : Nat) : Shift :=
  match validate_end_time ns sh.end_time with
  | .error _ => sh
  | .ok _ =>
    let sh' : Shift := { sh with start_time := ns }
    match validate_end_time sh'.start_time ne with
    | .error _ => sh'
    | .ok _ => { sh' with end_time := ne }

/-- `Shift(employee_id=..., start_time=..., end_time=...)` followed by
    `db.session.add`: the constructor fires the validator, so a window with
    `end <= start` raises and the row is never added. -/
def insertShift (empId s e : Nat) (store : List Shift) : List Shift :=
  match validate_end_time s e with
  | .error _ => store
  | .ok _ => store ++ [⟨empId, s, e⟩]

/-! ## The mutation applier (`apply_schedule_updates`, ollama.py 272-332) -/

/-- One parsed ChangeRequest as the applier reads it off a dict:
    `item.get(...)` yields `none` for a missing key. -/
structure ChangeItem where
  employee : Option String
  date : Option String
  shift_type : Option String
deriving DecidableEq, Repr

/-- Python truthiness of `item.get(key)` for a string-valued field:
    `not emp_name` holds for a missing key (`None`) and for `""`. -/
def fieldMissing : Option String → Bool
  | none => true
  | some s => s.isEmpty

/-- The fixed hour window of a shift-type label (ollama.py 290-305):
    unrecognized labels keep the `9, 17` default; `Night` ends at hour 5 of
    the following day. -/
def shiftWindow (shift_type : String) (day : Nat) : Nat × Nat :=
  if shift_type = "Morning" then (mkTime day 5, mkTime day 12)
  else if shift_type = "Afternoon" then (mkTime day 12, mkTime day 16)
  else if shift_type = "Evening" then (mkTime day 16, mkTime day 21)
  else if shift_type = "Night" then (mkTime day 21, mkTime (day + 1) 5)
  else (mkTime day 9, mkTime day 17)

/-- The existing-shift filter of the upsert (ollama.py 308-312):
    same employee, start time inside the `[s, e)` window. -/
def inWindow (empId s e : Nat) (sh : Shift) : Bool :=
  sh.employee_id == empId && decide (s ≤ sh.start_time) && decide (sh.start_time < e)

/-- Overwrite the first element satisfying `p` (the `.first()` row the ORM
    hands back) with `upd`; everything else is untouched. -/
def overwriteFirst (p : Shift → Bool) (upd : Shift → Shift) : List Shift → List Shift
  | [] => []
  | sh :: rest => if p sh then upd sh :: rest else sh :: overwriteFirst p upd rest

/-- One iteration of the `for item in updates` loop of
    `apply_schedule_updates` (ollama.py 276-326): skip on missing/falsy
    field, unknown employee or unparseable date; otherwise upsert the shift
    keyed by (employee, shift-type window).  Any `ValueError` of the
    validator is caught by the per-item `except` (modelled inside
    `setShiftTimes` / `insertShift`). -/
def applyItem (emps : List Employee) (store : List Shift) (item : ChangeItem) : List Shift :=
  if fieldMissing item.employee || fieldMissing item.date || fieldMissing item.shift_type then
    store
  else
    match emps.find? (fun emp => emp.name == item.employee.getD "") with
    | none => store
    | some emp =>
      match parseDateYMD (item.date.getD "") with
      | none => store
      | some day =>
        match store.find? (inWindow emp.id
            (shiftWindow (item.shift_type.getD "") day).1
            (shiftWindow (item.shift_type.getD "") day).2) with
        | some _ =>
          overwriteFirst (inWindow emp.id
              (shiftWindow (item.shift_type.getD "") day).1
              (shiftWindow (item.shift_type.getD "") day).2)
            (fun sh => setShiftTimes sh
              (shiftWindow (item.shift_type.getD "") day).1
              (shiftWindow (item.shift_type.getD "") day).2) store
        | none =>
          insertShift emp.id
            (shiftWindow (item.shift_type.getD "") day).1
            (shiftWindow (item.shift_type.getD "") day).2 store

/-- The whole `for` loop of `apply_schedule_updates` over the session state
    (the final `commit`/`rollback` is modelled in the route embedding). -/
def applyScheduleUpdates (emps : List Employee) (store : List Shift)
    (updates : List ChangeItem) : List Shift :=
  updates.foldl (applyItem emps) store

/-- The skip conditions of the loop, collected: all three fields present and
    truthy, employee resolved by exact name, date parsed by `%Y-%m-%d`. -/
def isValidItem (emps : List Employee) (item : ChangeItem) : Bool :=
  !(fieldMissing item.employee || fieldMissing item.date || fieldMissing item.shift_type) &&
  (emps.find? (fun emp => emp.name == item.employee.getD "")).isSome &&
  (parseDateYMD (item.date.getD "")).isSome

/-! ## The response interpreter (ollama.py 259-269)

The route extracts the substring between the first `[` and the last `]` of
the generated text and hands it to `json.loads`.  `json.loads` implements
strict JSON (RFC 8259 plus the `NaN`/`Infinity` extensions of the CPython
decoder): string literals are double-quoted only. -/

/-- A parsed JSON value.  Number literals are kept as their lexeme: none of
    the pipeline code inspects numeric values, only parse success matters. -/
inductive JValue where
  | null
  | bool (b : Bool)
  | num (lexeme : String)
  | str (s : String)
  | arr (elems : List JValue)
  | obj (fields : List (String × JValue))
deriving Repr

/-- JSON insignificant whitespace (the CPython decoder skips exactly
    space, tab, newline and carriage return). -/
def isJsonWs (c : Char) : Bool :=
  c = ' ' || c = '\t' || c = '\n' || c = '\r'

/-- Drop leading JSON whitespace. -/
def skipWs : List Char → List Char
  | [] => []
  | c :: cs => if isJsonWs c then skipWs cs else c :: cs

/-- Value of one hexadecimal digit of a `\u` escape. -/
def hexVal (c : Char) : Option Nat :=
  if 48 ≤ c.toNat ∧ c.toNat ≤ 57 then some (c.toNat - 48)
  else if 97 ≤ c.toNat ∧ c.toNat ≤ 102 then some (c.toNat - 87)
  else if 65 ≤ c.toNat ∧ c.toNat ≤ 70 then some (c.toNat - 55)
  else none

/-- Consume an expected literal keyword character by character. -/
def dropLit : List Char → List Char → Option (List Char)
  | [], cs => some cs
  | _ :: _, [] => none
  | k :: ks, c :: cs => if c = k then dropLit ks cs else none

/-- Body of a double-quoted JSON string, after the opening quote: ends at
    the closing quote, handles the escape sequences of strict JSON, and
    rejects raw control characters (the decoder's `strict=True` default).
    A single quote is an ordinary character here: it can never open or
    close a string literal. -/
def parseStringBody : Nat → List Char → List Char → Option (String × List Char)
  | 0, _, _ => none
  | _ + 1, [], _ => none
  | fuel + 1, c :: cs, acc =>
    if c = '"' then some (String.mk acc.reverse, cs)
    else if c = '\\' then
      match cs with
      | [] => none
      | e :: cs2 =>
        if e = '"' then parseStringBody fuel cs2 ('"' :: acc)
        else if e = '\\' then parseStringBody fuel cs2 ('\\' :: acc)
        else if e = '/' then parseStringBody fuel cs2 ('/' :: acc)
        else if e = 'b' then parseStringBody fuel cs2 ('\x08' :: acc)
        else if e = 'f' then parseStringBody fuel cs2 ('\x0c' :: acc)
        else if e = 'n' then parseStringBody fuel cs2 ('\n' :: acc)
        else if e = 'r' then parseStringBody fuel cs2 ('\x0d' :: acc)
        else if e = 't' then parseStringBody fuel cs2 ('\t' :: acc)
        else if e = 'u' then
          match cs2 with
          | h1 :: h2 :: h3 :: h4 :: cs3 =>
            match hexVal h1, hexVal h2, hexVal h3, hexVal h4 with
            | some a, some b, some c2, some d =>
              parseStringBody fuel cs3 (Char.ofNat (((a * 16 + b) * 16 + c2) * 16 + d) :: acc)
            | _, _, _, _ => none
          | _ => none
        else none
    else if c.toNat < 32 then none
    else parseStringBody fuel cs (c :: acc)

/-- Take a maximal run of decimal digits. -/
def takeDigits : List Char → List Char × List Char
  | [] => ([], [])
  | c :: cs =>
    if c.isDigit then
      let (ds, rest) := takeDigits cs
      (c :: ds, rest)
    else ([], c :: cs)

/-- The optional fraction group `(\.\d+)?` of the JSON number grammar. -/
def lexFrac (cs : List Char) : List Char × List Char :=
  match cs with
  | '.' :: rest =>
    match takeDigits rest with
    | ([], _) => ([], cs)
    | (ds, r) => ('.' :: ds, r)
  | _ => ([], cs)

/-- The optional exponent group `([eE][-+]?\d+)?` of the JSON number
    grammar. -/
def lexExp (cs : List Char) : List Char × List Char :=
  match cs with
  | e :: rest =>
    if e = 'e' ∨ e = 'E' then
      match rest with
      | s :: rest2 =>
        if s = '+' ∨ s = '-' then
          match takeDigits rest2 with
          | ([], _) => ([], cs)
          | (ds, r) => ([e, s] ++ ds, r)
        else
          match takeDigits rest with
          | ([], _) => ([], cs)
          | (ds, r) => (e :: ds, r)
      | [] => ([], cs)
    else ([], cs)
  | [] => ([], cs)

/-- The JSON number lexeme `-?(0|[1-9]\d*)(\.\d+)?([eE][-+]?\d+)?`
    (maximal munch, as the CPython scanner's regular expression). -/
def lexNumber (cs0 : List Char) : Option (List Char × List Char) :=
  let signed :=
    match cs0 with
    | '-' :: rest => (['-'], rest)
    | _ => (([] : List Char), cs0)
  match signed.2 with
  | [] => none
  | c :: rest =>
    if c = '0' then
      let (frac, r1) := lexFrac rest
      let (ex, r2) := lexExp r1
      some (signed.1 ++ [c] ++ frac ++ ex, r2)
    else if c.isDigit then
      let (ds, r0) := takeDigits rest
      let (frac, r1) := lexFrac r0
      let (ex, r2) := lexExp r1
      some (signed.1 ++ (c :: ds) ++ frac ++ ex, r2)
    else none

mutual

/-- One JSON value, fuelled by nesting depth (the caller supplies more fuel
    than the input length, so fuel exhaustion never fires on a real
    input). -/
def parseVal : Nat → List Char → Option (JValue × List Char)
  | 0, _ => none
  | fuel + 1, cs =>
    match skipWs cs with
    | [] => none
    | c :: rest =>
      if c = '"' then
        match parseStringBody (rest.length + 1) rest [] with
        | some (s, r) => some (.str s, r)
        | none => none
      else if c = '[' then
        match skipWs rest with
        | ']' :: r => some (.arr [], r)
        | cs2 => parseArrLoop fuel cs2 []
      else if c = '\x7b' then
        match skipWs rest with
        | '\x7d' :: r => some (.obj [], r)
        | cs2 => parseObjLoop fuel cs2 []
      else if c = 't' then (dropLit ['r', 'u', 'e'] rest).map (fun r => (.bool true, r))
      else if c = 'f' then (dropLit ['a', 'l', 's', 'e'] rest).map (fun r => (.bool false, r))
      else if c = 'n' then (dropLit ['u', 'l', 'l'] rest).map (fun r => (.null, r))
      else if c = 'N' then (dropLit ['a', 'N'] rest).map (fun r => (.num "NaN", r))
      else if c = 'I' then
        (dropLit ['n', 'f', 'i', 'n', 'i', 't', 'y'] rest).map (fun r => (.num "Infinity", r))
      else if c = '-' then
        match rest with
        | 'I' :: r2 =>
          (dropLit ['n', 'f', 'i', 'n', 'i', 't', 'y'] r2).map (fun r => (.num "-Infinity", r))
        | _ => (lexNumber (c :: rest)).map (fun p => (.num (String.mk p.1), p.2))
      else (lexNumber (c :: rest)).map (fun p => (.num (String.mk p.1), p.2))

/-- Elements of a non-empty array, after the opening bracket. -/
def parseArrLoop : Nat → List Char → List JValue → Option (JValue × List Char)
  | 0, _, _ => none
  | fuel + 1, cs, acc =>
    match parseVal fuel cs with
    | none => none
    | some (v, r) =>
      match skipWs r with
      | ',' :: r2 => parseArrLoop fuel r2 (acc ++ [v])
      | ']' :: r2 => some (.arr (acc ++ [v]), r2)
      | _ => none

/-- Members of a non-empty object, after the opening brace. -/
def parseObjLoop : Nat → List Char → List (String × JValue) → Option (JValue × List Char)
  | 0, _, _ => none
  | fuel + 1, cs, acc =>
    match skipWs cs with
    | '"' :: r =>
      match parseStringBody (r.length + 1) r [] with
      | none => none
      | some (k, r2) =>
        match skipWs r2 with
        | ':' :: r3 =>
          match parseVal fuel r3 with
          | none => none
          | some (v, r4) =>
            match skipWs r4 with
            | ',' :: r5 => parseObjLoop fuel r5 (acc ++ [(k, v)])
            | '\x7d' :: r5 => some (.obj (acc ++ [(k, v)]), r5)
            | _ => none
        | _ => none
    | _ => none

end

/-- `json.loads` on a character list: one value, then only trailing
    whitespace. -/
def jsonLoads (cs : List Char) : Option JValue :=
  match parseVal (2 * cs.length + 2) cs with
  | some (v, rest) => if (skipWs rest).isEmpty then some v else none
  | none => none

/-- `text.find('[')` / `text.rfind(']')` and the slice
    `text[json_start:json_end+1]`, guarded by `json_end > json_start`
    (ollama.py 263-266). -/
def bracketSlice (cs : List Char) : Option (List Char) :=
  match cs.findIdx? (· = '[') with
  | none => none
  | some i =>
    match cs.reverse.findIdx? (· = ']') with
    | none => none
    | some rj =>
      let j := cs.length - 1 - rj
      if i < j then some ((cs.take (j + 1)).drop i) else none

/-- The response interpreter (ollama.py 259-269): slice between the
    bracket pair, `json.loads` it; any failure (no pair, or a parse error,
    including single-quoted string literals) leaves `schedule_updates` as
    the empty list. -/
def extractScheduleUpdates (text : String) : List JValue :=
  match bracketSlice text.data with
  | none => []
  | some cs =>
    match jsonLoads cs with
    | some (.arr elems) => elems
    | _ => []

/-- `item.get(key)` on a parsed object: Python dicts keep the last value of
    a duplicated key.  A non-object item makes `.get` raise, which the
    per-item `except` of the applier turns into a skip; field values that
    are not JSON strings fail the later name/date comparisons the same way
    a missing field does, so they are mapped to `none` here. -/
def jStringVal : JValue → Option String
  | .str s => some s
  | _ => none

/-- Last-occurrence lookup, matching Python dict construction order. -/
def lookupLast (k : String) (fields : List (String × JValue)) : Option JValue :=
  fields.reverse.lookup k

/-- Read one extracted update as the applier's `item.get(...)` calls see
    it. -/
def toChangeItem : JValue → Option ChangeItem
  | .obj fields =>
    some ⟨(lookupLast "employee" fields).bind jStringVal,
          (lookupLast "date" fields).bind jStringVal,
          (lookupLast "shift_type" fields).bind jStringVal⟩
  | _ => none

/-! ## NLU date extraction (`backend/utils/nlu.py` 74-106)

`NLU.extract_dates` delegates its flexible pass to the external
`dateparser` library: `dateparser.search.search_dates(query)` returns a
list of `(fragment, datetime)` pairs, or `None` when no date is found in
the text (the library's documented no-match result).  The library call is
therefore a parameter of the embedding, an `Option`-returning search
function, and the `list(...)` wrapper around it is the fallible step: on a
`None` result `list(None)` raises `TypeError`. -/

/-- The date part of a Python `datetime`, as `extract_dates` hands it
    back. -/
structure PyDate where
  year : Nat
  month : Nat
  day : Nat
deriving DecidableEq, Repr

/-- Whether `pat` is a prefix of `cs`. -/
def startsWithChars : List Char → List Char → Bool
  | [], _ => true
  | _ :: _, [] => false
  | p :: ps, c :: cs => p = c && startsWithChars ps cs

/-- Whether `pat` occurs contiguously in `cs`. -/
def occursInChars (pat : List Char) : List Char → Bool
  | [] => pat.isEmpty
  | c :: cs => startsWithChars pat (c :: cs) || occursInChars pat cs

/-- Substring containment, as Python's `in` on strings. -/
def containsSubstr (pat s : String) : Bool :=
  occursInChars pat.data s.data

/-- `query.lower()` on the ASCII queries the pipeline handles. -/
def toLowerAscii (s : String) : String :=
  String.mk (s.data.map Char.toLower)

/-- `next_month - timedelta(days=1)` for a first-of-month date: the last
    day of the preceding month. -/
def subOneDay (d : PyDate) : PyDate :=
  if 1 < d.day then { d with day := d.day - 1 }
  else if 1 < d.month then ⟨d.year, d.month - 1, daysInMonth d.year (d.month - 1)⟩
  else ⟨d.year - 1, 12, 31⟩

/-- `NLU.extract_dates` (nlu.py 74-106).  `searchDates` stands for
    `dateparser.search.search_dates`; `today` for `datetime.today()`.  An
    `Except.error` result models an uncaught Python exception escaping the
    method. -/
def extract_dates (searchDates : String → Option (List (String × PyDate)))
    (today : PyDate) (query : String) : Except String (Option PyDate × Option PyDate) :=
  let q := toLowerAscii query
  if containsSubstr "this month" q then
    let first_day := { today with day := 1 }
    let next_month :=
      if today.month = 12 then PyDate.mk (today.year + 1) 1 1
      else PyDate.mk today.year (today.month + 1) 1
    let last_day := subOneDay next_month
    .ok (some first_day, some last_day)
  else
    match searchDates query with
    | none => .error "TypeError: NoneType object is not iterable"
    | some dates =>
      match dates with
      | [d] => .ok (some d.2, some d.2)
      | d1 :: d2 :: _ => .ok (some d1.2, some d2.2)
      | [] => .ok (none, none)

/-! ## Month-level aggregation (`get_shifts_for_month`, rag_helpers.py 196-222)

The per-employee summary is a Python dict built in iteration order: the
loop increments `emp_summary[name]["count"]`, creating the key on first
sight.  An insertion-ordered association list is the faithful image. -/

/-- One loop iteration of the aggregation: bump the count of `n`, creating
    the entry at the end on first occurrence. -/
def addName : List (String × Nat) → String → List (String × Nat)
  | [], n => [(n, 1)]
  | (m, c) :: rest, n =>
    if m = n then (m, c + 1) :: rest else (m, c) :: addName rest n

/-- The `emp_summary` dict restricted to its `count` field, over the
    rendered employee names of the month's shifts (an unassigned shift
    contributes the name `"Unassigned"`). -/
def empSummary (names : List String) : List (String × Nat) :=
  names.foldl addName []

/-- `max(info["count"] for info in emp_summary.values())`, via a running
    maximum (all counts are at least 1, so the 0 seed is inert on the
    non-empty summaries the source guards for). -/
def maxShiftCount (summary : List (String × Nat)) : Nat :=
  (summary.map Prod.snd).foldl Nat.max 0

/-- `top_emps = [emp for emp, info in emp_summary.items() if info["count"]
    == max_count]` — the employees interpolated into the appended
    leaderboard line. -/
def topEmps (summary : List (String × Nat)) : List String :=
  (summary.filter (fun p => p.2 == maxShiftCount summary)).map Prod.fst

/-! ## Prompt builder and the route tail (ollama.py 9-46 and 186-341) -/

/-- `build_augmented_prompt` (ollama.py 27-46), the exact concatenation the
    source returns. -/
def build_augmented_prompt (schedule_context policy_context user_query : String) : String :=
  "You are a helpful scheduling assistant. " ++
  "Your goal is to answer the user\x27s question about the work schedule and relevant policies, " ++
  "using ONLY the provided context below. " ++
  "Do not make assumptions or use external knowledge. " ++
  "If the context does not contain the answer, clearly state that the information is not available.\n\n" ++
  "=== Schedule Context ===\n" ++
  schedule_context ++ "\n\n" ++
  "=== Policy Context ===\n" ++
  policy_context ++ "\n\n" ++
  "User Question:\n" ++
  user_query ++ "\n\n" ++
  "Instructions for Schedule Changes:\n" ++
  "If the supervisor approves a replacement or schedule change, respond with a JSON array containing the schedule update(s) in the following format:\n" ++
  "[\x7b\"employee\": \"Replacement Name\", \"date\": \"YYYY-MM-DD\", \"shift_type\": \"Morning/Afternoon/Evening/Night\"\x7d]\n" ++
  "Do not make any changes unless the supervisor explicitly approves. Always ask for confirmation before proceeding.\n\n" ++
  "Special Instruction: If the user\x27s question is about who is working the most shifts (e.g., \x27who is working the most morning shifts this month?\x27), use the schedule context above to answer directly. Name the employee(s) and the count. If there is a tie, list all top employees.\n\n" ++
  "You MUST answer using only the JSON data in the \x27=== Shift Data (JSON) ===\x27 section above. Do not use any names or numbers not present in the JSON. If the answer is not in the JSON, say so.\n\n" ++
  "Answer:"

/-- `"\n".join([r["text"] for r in policy_results])`, with the whole
    `try` block collapsing to `policy_context = ""` on any raised
    exception (ollama.py 186-199). -/
def policyContextOf : Except String (List String) → String
  | .error _ => ""
  | .ok results => String.intercalate "\n" results

/-- Python string whitespace as `str.strip()` removes it. -/
def isPyWs (c : Char) : Bool :=
  c = ' ' || c = '\t' || c = '\n' || c = '\x0d' || c = '\x0b' || c = '\x0c'

/-- `text.strip()`. -/
def pyStrip (s : String) : String :=
  String.mk (((s.data.dropWhile isPyWs).reverse.dropWhile isPyWs).reverse)

/-- `ai_response_text = response.json().get('response', '').strip()` plus
    the empty-completion fallback (ollama.py 221-225). -/
def normalizeAnswer (text : String) : String :=
  let t := pyStrip text
  if t = "" then "The assistant did not provide a response." else t

/-- Result of the outbound generation call (ollama.py 208-241):
    a timeout, a connection/remote error, or a completion. -/
inductive GenResult where
  | timeout
  | connError (detail : String)
  | ok (text : String)
deriving Repr

/-- The observable side-effecting operations of the route, in the order the
    code reaches them. -/
inductive Step where
  | policySearch
  | generate
  | logInteraction
  | interpret
  | mutate
  | respond
deriving DecidableEq, Repr

/-- Inputs of the route tail: the schedule context assembled by the RAG
    section (lines 98-184) together with the outcomes of the external
    calls and of the two commits. -/
structure RouteEnv where
  userQuery : String
  scheduleContext : String
  policyResult : Except String (List String)
  genResult : GenResult
  logCommitOk : Bool
  mutationCommitOk : Bool
  emps : List Employee
  store : List Shift

/-- Observable outcome of the route tail: HTTP status, answer text, the
    extracted change-list, the calendar store after commit or rollback,
    whether the interaction record was durably logged, the prompt sent to
    the generator and the step trace. -/
structure RouteOutcome where
  status : Nat
  answer : Option String
  scheduleUpdates : List JValue
  finalStore : List Shift
  interactionLogged : Bool
  prompt : String
  trace : List Step

/-- The applier loop as called on the raw extracted array: a non-object
    item raises at `item.get` and is skipped by the per-item `except`. -/
def applyUpdatesJson (emps : List Employee) (store : List Shift)
    (updates : List JValue) : List Shift :=
  updates.foldl
    (fun st j =>
      match toChangeItem j with
      | none => st
      | some it => applyItem emps st it)
    store

/-- The route from the policy-search call to the response
    (ollama.py 186-341).  Generation failures return at once with 504/502;
    on success the interaction record is committed (a failure there is
    rolled back and swallowed), then the change-list is extracted, then —
    only when it is non-empty — `apply_schedule_updates` runs, whose final
    commit failure rolls the whole batch back and is swallowed too; the
    route replies 200 with the answer and the extracted list. -/
def queryOllamaAfterContext (env : RouteEnv) : RouteOutcome :=
  let policy_context := policyContextOf env.policyResult
  let prompt := build_augmented_prompt env.scheduleContext policy_context env.userQuery
  match env.genResult with
  | .timeout =>
    ⟨504, none, [], env.store, false, prompt, [.policySearch, .generate]⟩
  | .connError _ =>
    ⟨502, none, [], env.store, false, prompt, [.policySearch, .generate]⟩
  | .ok text =>
    let ai := normalizeAnswer text
    let updates := extractScheduleUpdates ai
    let applied := applyUpdatesJson env.emps env.store updates
    let finalStore :=
      if updates.isEmpty then env.store
      else if env.mutationCommitOk then applied
      else env.store
    { status := 200
      answer := some ai
      scheduleUpdates := updates
      finalStore := finalStore
      interactionLogged := env.logCommitOk
      prompt := prompt
      trace := [.policySearch, .generate, .logInteraction, .interpret] ++
        (if updates.isEmpty then [] else [.mutate]) ++ [.respond] }

/-! ## General lemmas about the embedding -/

theorem shiftWindow_lt (st : String) (day : Nat) :
    (shiftWindow st day).1 < (shiftWindow st day).2 := by
  unfold shiftWindow mkTime
  repeat' split
  all_goals omega

theorem overwriteFirst_append_left (p : Shift → Bool) (f : Shift → Shift)
    (l₁ l₂ : List Shift) (h : ∀ x ∈ l₁, p x = false) :
    overwriteFirst p f (l₁ ++ l₂) = l₁ ++ overwriteFirst p f l₂ := by
  induction l₁ with
  | nil => simp
  | cons a l ih =>
    simp only [List.cons_append, overwriteFirst]
    rw [if_neg (by simp [h a (List.mem_cons_self a l)])]
    exact congrArg (a :: ·) (ih (fun x hx => h x (List.mem_cons_of_mem a hx)))

theorem overwriteFirst_invariant (p : Shift → Bool) (f : Shift → Shift)
    (Q : Shift → Prop) :
    ∀ l : List Shift, (∀ x ∈ l, Q x) → (∀ x, Q x → Q (f x)) →
      ∀ x ∈ overwriteFirst p f l, Q x
  | [] => by intro _ _ x hx; simp [overwriteFirst] at hx
  | a :: l => by
    intro hl hf x hx
    simp only [overwriteFirst] at hx
    split at hx
    · rcases List.mem_cons.mp hx with h | h
      · exact h ▸ hf a (hl a (List.mem_cons_self a l))
      · exact hl x (List.mem_cons_of_mem a h)
    · rcases List.mem_cons.mp hx with h | h
      · exact h ▸ hl a (List.mem_cons_self a l)
      · exact overwriteFirst_invariant p f Q l
          (fun y hy => hl y (List.mem_cons_of_mem a hy)) hf x h

theorem find?_overwriteFirst_mem (p : Shift → Bool) (f : Shift → Shift) :
    ∀ (l : List Shift) (a : Shift), l.find? p = some a → f a ∈ overwriteFirst p f l
  | [], a => by intro h; simp at h
  | b :: l, a => by
    intro h
    by_cases hb : p b
    · rw [List.find?_cons_of_pos _ hb] at h
      injection h with h
      subst h
      simp [overwriteFirst, hb]
    · rw [List.find?_cons_of_neg _ hb] at h
      simp only [overwriteFirst, if_neg hb]
      exact List.mem_cons_of_mem b (find?_overwriteFirst_mem p f l a h)

theorem isEmpty_false_of_ne {s : String} (h : s ≠ "") : s.isEmpty = false := by
  cases hc : s.isEmpty
  · rfl
  · exact absurd ((String.isEmpty_iff s).mp hc) h

theorem applyItem_of_resolved {item : ChangeItem} {n ds st : String}
    {emp : Employee} {day : Nat} (emps : List Employee) (store : List Shift)
    (he : item.employee = some n) (hn : n ≠ "")
    (hd : item.date = some ds)
    (hs : item.shift_type = some st) (hst : st ≠ "")
    (hemp : emps.find? (fun e' => e'.name == n) = some emp)
    (hday : parseDateYMD ds = some day) :
    applyItem emps store item =
      match store.find? (inWindow emp.id (shiftWindow st day).1 (shiftWindow st day).2) with
      | some _ =>
        overwriteFirst (inWindow emp.id (shiftWindow st day).1 (shiftWindow st day).2)
          (fun sh => setShiftTimes sh (shiftWindow st day).1 (shiftWindow st day).2) store
      | none => insertShift emp.id (shiftWindow st day).1 (shiftWindow st day).2 store := by
  have hds : ds ≠ "" := by
    intro hh
    rw [hh, show parseDateYMD "" = none from rfl] at hday
    cases hday
  have h1 : fieldMissing item.employee = false := by
    rw [he]; exact isEmpty_false_of_ne hn
  have h2 : fieldMissing item.date = false := by
    rw [hd]; exact isEmpty_false_of_ne hds
  have h3 : fieldMissing item.shift_type = false := by
    rw [hs]; exact isEmpty_false_of_ne hst
  unfold applyItem
  rw [h1, h2, h3, he, hd, hs]
  simp only [Option.getD_some]
  rw [hemp, hday]
  simp

theorem applyItem_fresh {item : ChangeItem} {n ds st : String}
    {emp : Employee} {day : Nat} (emps : List Employee) (store : List Shift)
    (he : item.employee = some n) (hn : n ≠ "")
    (hd : item.date = some ds)
    (hs : item.shift_type = some st) (hst : st ≠ "")
    (hemp : emps.find? (fun e' => e'.name == n) = some emp)
    (hday : parseDateYMD ds = some day)
    (hfresh : store.find? (inWindow emp.id (shiftWindow st day).1 (shiftWindow st day).2) = none) :
    applyItem emps store item =
      insertShift emp.id (shiftWindow st day).1 (shiftWindow st day).2 store := by
  rw [applyItem_of_resolved emps store he hn hd hs hst hemp hday, hfresh]

theorem applyItem_found {item : ChangeItem} {n ds st : String}
    {emp : Employee} {day : Nat} (emps : List Employee) (store : List Shift)
    (sh0 : Shift)
    (he : item.employee = some n) (hn : n ≠ "")
    (hd : item.date = some ds)
    (hs : item.shift_type = some st) (hst : st ≠ "")
    (hemp : emps.find? (fun e' => e'.name == n) = some emp)
    (hday : parseDateYMD ds = some day)
    (hfound : store.find? (inWindow emp.id (shiftWindow st day).1 (shiftWindow st day).2) = some sh0) :
    applyItem emps store item =
      overwriteFirst (inWindow emp.id (shiftWindow st day).1 (shiftWindow st day).2)
        (fun sh => setShiftTimes sh (shiftWindow st day).1 (shiftWindow st day).2) store := by
  rw [applyItem_of_resolved emps store he hn hd hs hst hemp hday, hfound]

theorem insertShift_of_lt (empId s e : Nat) (store : List Shift) (h : s < e) :
    insertShift empId s e store = store ++ [⟨empId, s, e⟩] := by
  simp [insertShift, validate_end_time, Nat.not_le.mpr h]

/-! ## C1: the upsert is idempotent -/

/-- Claim C1: for a ChangeRequest whose employee name exactly matches a
    directory entry and whose date parses as `YYYY-MM-DD`, applied to a
    store with no existing entry in the target (employee, day, shift-type
    window), applying it twice equals applying it once, and the resulting
    store holds exactly one entry for that window: the second application
    finds the entry created by the first (its start time lies inside the
    window) and overwrites its start/end instead of inserting. -/
theorem upsert_idempotent (emps : List Employee) (store : List Shift)
    (item : ChangeItem) (n ds st : String) (emp : Employee) (day : Nat)
    (he : item.employee = some n) (hn : n ≠ "")
    (hd : item.date = some ds)
    (hs : item.shift_type = some st) (hst : st ≠ "")
    (hemp : emps.find? (fun e' => e'.name == n) = some emp)
    (hday : parseDateYMD ds = some day)
    (hfresh : store.find? (inWindow emp.id (shiftWindow st day).1 (shiftWindow st day).2) = none) :
    applyItem emps (applyItem emps store item) item = applyItem emps store item ∧
    (applyItem emps (applyItem emps store item) item).countP
      (inWindow emp.id (shiftWindow st day).1 (shiftWindow st day).2) = 1 := by
  have hlt : (shiftWindow st day).1 < (shiftWindow st day).2 := shiftWindow_lt st day
  have hnew : inWindow emp.id (shiftWindow st day).1 (shiftWindow st day).2
      ⟨emp.id, (shiftWindow st day).1, (shiftWindow st day).2⟩ = true := by
    simp [inWindow, hlt]
  have hstorefalse : ∀ x ∈ store,
      inWindow emp.id (shiftWindow st day).1 (shiftWindow st day).2 x = false := by
    intro x hx
    simpa using List.find?_eq_none.mp hfresh x hx
  have h1 : applyItem emps store item =
      store ++ [⟨emp.id, (shiftWindow st day).1, (shiftWindow st day).2⟩] := by
    rw [applyItem_fresh emps store he hn hd hs hst hemp hday hfresh,
      insertShift_of_lt _ _ _ _ hlt]
  have hfind2 : List.find? (inWindow emp.id (shiftWindow st day).1 (shiftWindow st day).2)
      (store ++ ([⟨emp.id, (shiftWindow st day).1, (shiftWindow st day).2⟩] : List Shift)) =
      some ⟨emp.id, (shiftWindow st day).1, (shiftWindow st day).2⟩ := by
    rw [List.find?_append, hfresh, Option.none_or, List.find?_cons_of_pos _ hnew]
  have hsame : setShiftTimes ⟨emp.id, (shiftWindow st day).1, (shiftWindow st day).2⟩
      (shiftWindow st day).1 (shiftWindow st day).2 =
      ⟨emp.id, (shiftWindow st day).1, (shiftWindow st day).2⟩ := by
    simp [setShiftTimes, validate_end_time, Nat.not_le.mpr hlt]
  have h2 : applyItem emps
      (store ++ [⟨emp.id, (shiftWindow st day).1, (shiftWindow st day).2⟩]) item =
      store ++ [⟨emp.id, (shiftWindow st day).1, (shiftWindow st day).2⟩] := by
    rw [applyItem_found emps _ _ he hn hd hs hst hemp hday hfind2,
      overwriteFirst_append_left _ _ _ _ hstorefalse]
    simp only [overwriteFirst, hnew, if_true, hsame]
  refine ⟨by rw [h1, h2], ?_⟩
  rw [h1, h2, List.countP_append]
  have hzero : store.countP
      (inWindow emp.id (shiftWindow st day).1 (shiftWindow st day).2) = 0 :=
    List.countP_eq_zero.mpr (fun a ha => by simp [hstorefalse a ha])
  rw [hzero]
  simp [List.countP_cons, hnew]

/-- Witness for C1: the spec's own example, `Known Employee` on
    `2025-04-01`, `Afternoon` window, applied twice to an empty store. -/
theorem upsert_idempotent_witness :
    applyItem [⟨1, "Known Employee"⟩]
        (applyItem [⟨1, "Known Employee"⟩] []
          ⟨some "Known Employee", some "2025-04-01", some "Afternoon"⟩)
        ⟨some "Known Employee", some "2025-04-01", some "Afternoon"⟩ =
      applyItem [⟨1, "Known Employee"⟩] []
        ⟨some "Known Employee", some "2025-04-01", some "Afternoon"⟩ ∧
    (applyItem [⟨1, "Known Employee"⟩]
        (applyItem [⟨1, "Known Employee"⟩] []
          ⟨some "Known Employee", some "2025-04-01", some "Afternoon"⟩)
        ⟨some "Known Employee", some "2025-04-01", some "Afternoon"⟩).countP
      (inWindow 1 (shiftWindow "Afternoon" 739647).1 (shiftWindow "Afternoon" 739647).2) = 1 :=
  upsert_idempotent [⟨1, "Known Employee"⟩] []
    ⟨some "Known Employee", some "2025-04-01", some "Afternoon"⟩
    "Known Employee" "2025-04-01" "Afternoon" ⟨1, "Known Employee"⟩ 739647
    rfl (by decide) rfl rfl (by decide) (by decide) (by decide) (by decide)

/-! ## C6: skip-on-error per item -/

theorem applyItem_of_invalid (emps : List Employee) (item : ChangeItem)
    (hbad : isValidItem emps item = false) (store : List Shift) :
    applyItem emps store item = store := by
  unfold applyItem
  by_cases hm : (fieldMissing item.employee || fieldMissing item.date ||
      fieldMissing item.shift_type) = true
  · rw [if_pos hm]
  · have hm' : (fieldMissing item.employee || fieldMissing item.date ||
        fieldMissing item.shift_type) = false := by simpa using hm
    rw [if_neg hm]
    cases hfind : emps.find? (fun e' => e'.name == item.employee.getD "") with
    | none => rfl
    | some emp =>
      cases hday : parseDateYMD (item.date.getD "") with
      | none => rfl
      | some day =>
        exfalso
        unfold isValidItem at hbad
        rw [hm', hfind, hday] at hbad
        simp at hbad

theorem applyScheduleUpdates_filter (emps : List Employee) :
    ∀ (updates : List ChangeItem) (store : List Shift),
      applyScheduleUpdates emps store updates =
        applyScheduleUpdates emps store (updates.filter (isValidItem emps))
  | [], _ => rfl
  | u :: us, store => by
    by_cases h : isValidItem emps u = true
    · rw [show (u :: us).filter (isValidItem emps) = u :: us.filter (isValidItem emps) from by
        simp [List.filter_cons, h]]
      show applyScheduleUpdates emps (applyItem emps store u) us =
        applyScheduleUpdates emps (applyItem emps store u) (us.filter (isValidItem emps))
      exact applyScheduleUpdates_filter emps us (applyItem emps store u)
    · have h' : isValidItem emps u = false := by simpa using h
      rw [show (u :: us).filter (isValidItem emps) = us.filter (isValidItem emps) from by
        simp [List.filter_cons, h']]
      show applyScheduleUpdates emps (applyItem emps store u) us =
        applyScheduleUpdates emps store (us.filter (isValidItem emps))
      rw [applyItem_of_invalid emps u h' store]
      exact applyScheduleUpdates_filter emps us store

/-- Claim C6: an item with an unknown employee or a missing (or falsy)
    `employee`/`date`/`shift_type` field is skipped — it leaves the session
    state unchanged — and the whole batch equals the batch restricted to
    its valid items, so every remaining valid item is still applied and
    reaches the single final commit. -/
theorem skip_invalid_continue_batch (emps : List Employee) (store : List Shift)
    (updates : List ChangeItem) (item : ChangeItem)
    (hbad : isValidItem emps item = false) :
    applyItem emps store item = store ∧
    applyScheduleUpdates emps store updates =
      applyScheduleUpdates emps store (updates.filter (isValidItem emps)) :=
  ⟨applyItem_of_invalid emps item hbad store,
   applyScheduleUpdates_filter emps updates store⟩

/-- Witness for C6: a batch with an unknown employee (`Bob`) ahead of a
    valid item (`Alice`) — the invalid item is skipped and the batch
    equals its valid restriction. -/
theorem skip_invalid_continue_batch_witness :
    applyItem [⟨1, "Alice"⟩] [] ⟨some "Bob", some "2025-04-01", some "Morning"⟩ = [] ∧
    applyScheduleUpdates [⟨1, "Alice"⟩] []
        [⟨some "Bob", some "2025-04-01", some "Morning"⟩,
         ⟨some "Alice", some "2025-04-01", some "Morning"⟩] =
      applyScheduleUpdates [⟨1, "Alice"⟩] []
        ([⟨some "Bob", some "2025-04-01", some "Morning"⟩,
          ⟨some "Alice", some "2025-04-01", some "Morning"⟩].filter
          (isValidItem [⟨1, "Alice"⟩])) :=
  skip_invalid_continue_batch [⟨1, "Alice"⟩] []
    [⟨some "Bob", some "2025-04-01", some "Morning"⟩,
     ⟨some "Alice", some "2025-04-01", some "Morning"⟩]
    ⟨some "Bob", some "2025-04-01", some "Morning"⟩ (by decide)

/-! ## C8: every write keeps end after start -/

theorem setShiftTimes_invariant (sh : Shift) (ns ne : Nat)
    (hsh : sh.start_time < sh.end_time) (hlt : ns < ne) :
    (setShiftTimes sh ns ne).start_time < (setShiftTimes sh ns ne).end_time := by
  unfold setShiftTimes validate_end_time
  by_cases h1 : sh.end_time ≤ ns
  · simp only [if_pos h1]
    exact hsh
  · simp only [if_neg h1]
    have h2 : ¬ ne ≤ ns := Nat.not_le.mpr hlt
    simp [h2, hlt]

theorem insertShift_invariant (empId s e : Nat) (store : List Shift)
    (hinv : ∀ sh ∈ store, sh.start_time < sh.end_time) :
    ∀ sh ∈ insertShift empId s e store, sh.start_time < sh.end_time := by
  unfold insertShift validate_end_time
  by_cases h1 : e ≤ s
  · simp only [if_pos h1]
    exact hinv
  · simp only [if_neg h1]
    intro sh hsh
    rcases List.mem_append.mp hsh with h | h
    · exact hinv sh h
    · rw [List.mem_singleton.mp h]
      show s < e
      omega

theorem applyItem_invariant (emps : List Employee) (item : ChangeItem)
    (store : List Shift) (hinv : ∀ sh ∈ store, sh.start_time < sh.end_time) :
    ∀ sh ∈ applyItem emps store item, sh.start_time < sh.end_time := by
  unfold applyItem
  split
  · exact hinv
  · split
    · exact hinv
    · split
      · exact hinv
      · split
        · apply overwriteFirst_invariant _ _ _ store hinv
          intro x hx
          exact setShiftTimes_invariant x _ _ hx (shiftWindow_lt _ _)
        · exact insertShift_invariant _ _ _ store hinv

theorem applyScheduleUpdates_invariant (emps : List Employee) :
    ∀ (updates : List ChangeItem) (store : List Shift),
      (∀ sh ∈ store, sh.start_time < sh.end_time) →
      ∀ sh ∈ applyScheduleUpdates emps store updates, sh.start_time < sh.end_time
  | [], _ => fun h => h
  | u :: us, store => fun h =>
    applyScheduleUpdates_invariant emps us (applyItem emps store u)
      (applyItem_invariant emps u store h)

/-- Claim C8: every shift-type window (the Night window wrapping to hour 5
    of the following day and the 9-17 default included) has its end
    strictly after its start, the model validator rejects any attempted
    write with `end_time <= start_time`, and applying any batch of
    ChangeRequests to a store in which every entry has end after start
    leaves every entry with end after start. -/
theorem writes_preserve_end_after_start (emps : List Employee)
    (store : List Shift) (updates : List ChangeItem)
    (hinv : ∀ sh ∈ store, sh.start_time < sh.end_time) :
    (∀ st day, (shiftWindow st day).1 < (shiftWindow st day).2) ∧
    (∀ s e : Nat, e ≤ s →
      validate_end_time s e = .error "End time must be after start time.") ∧
    (∀ sh ∈ applyScheduleUpdates emps store updates, sh.start_time < sh.end_time) :=
  ⟨shiftWindow_lt,
   fun _ _ h => by simp [validate_end_time, h],
   applyScheduleUpdates_invariant emps updates store hinv⟩

/-- Witness for C8: a Night shift applied to an empty store. -/
theorem writes_preserve_end_after_start_witness :
    (∀ sh ∈ ([] : List Shift), sh.start_time < sh.end_time) ∧
    (∀ sh ∈ applyScheduleUpdates [⟨1, "Alice"⟩] []
        [⟨some "Alice", some "2025-04-01", some "Night"⟩],
      sh.start_time < sh.end_time) :=
  ⟨by simp,
   (writes_preserve_end_after_start [⟨1, "Alice"⟩] []
     [⟨some "Alice", some "2025-04-01", some "Night"⟩] (by simp)).2.2⟩

/-! ## C10: unrecognized shift-type labels and the default window -/

/-- Claim C10 as stated is refuted by the empty label: a ChangeRequest
    whose `shift_type` is `""` — a string that is not one of Morning,
    Afternoon, Evening, Night — whose employee resolves and whose date
    parses is nevertheless skipped and produces no calendar mutation,
    because the applier's missing-field test uses Python truthiness and
    the empty string is falsy. -/
theorem default_window_counterexample :
    applyItem [⟨1, "Alice"⟩] [] ⟨some "Alice", some "2025-04-01", some ""⟩ = [] ∧
    isValidItem [⟨1, "Alice"⟩] ⟨some "Alice", some "2025-04-01", some ""⟩ = false ∧
    (List.find? (fun e' => e'.name == "Alice")
      ([⟨1, "Alice"⟩] : List Employee)).isSome = true ∧
    (parseDateYMD "2025-04-01").isSome = true := by
  decide

/-- Claim C10 (amended): a ChangeRequest whose `shift_type` label is a
    *non-empty* string other than Morning, Afternoon, Evening or Night,
    whose employee resolves and whose date parses, is not skipped: the
    applier upserts an entry with the default 09:00-17:00 window on the
    given day. -/
theorem default_window_applied (emps : List Employee) (store : List Shift)
    (item : ChangeItem) (n ds st : String) (emp : Employee) (day : Nat)
    (he : item.employee = some n) (hn : n ≠ "")
    (hd : item.date = some ds)
    (hs : item.shift_type = some st) (hst : st ≠ "")
    (hm : st ≠ "Morning") (ha : st ≠ "Afternoon")
    (hev : st ≠ "Evening") (hni : st ≠ "Night")
    (hemp : emps.find? (fun e' => e'.name == n) = some emp)
    (hday : parseDateYMD ds = some day)
    (hinv : ∀ sh ∈ store, sh.start_time < sh.end_time) :
    ∃ sh ∈ applyItem emps store item,
      sh.employee_id = emp.id ∧ sh.start_time = mkTime day 9 ∧
      sh.end_time = mkTime day 17 := by
  have hw : shiftWindow st day = (mkTime day 9, mkTime day 17) := by
    simp [shiftWindow, hm, ha, hev, hni]
  have hlt : (shiftWindow st day).1 < (shiftWindow st day).2 := shiftWindow_lt st day
  cases hfind : store.find?
      (inWindow emp.id (shiftWindow st day).1 (shiftWindow st day).2) with
  | none =>
    rw [applyItem_fresh emps store he hn hd hs hst hemp hday hfind,
      insertShift_of_lt _ _ _ _ hlt]
    refine ⟨⟨emp.id, (shiftWindow st day).1, (shiftWindow st day).2⟩, by simp, rfl, ?_, ?_⟩
    · rw [hw]
    · rw [hw]
  | some sh0 =>
    rw [applyItem_found emps store sh0 he hn hd hs hst hemp hday hfind]
    have hp := List.find?_some hfind
    have hmem := List.mem_of_find?_eq_some hfind
    simp only [inWindow, Bool.and_eq_true, beq_iff_eq, decide_eq_true_eq] at hp
    have hend : (shiftWindow st day).1 < sh0.end_time :=
      lt_of_le_of_lt hp.1.2 (hinv sh0 hmem)
    have hset : setShiftTimes sh0 (shiftWindow st day).1 (shiftWindow st day).2 =
        ⟨sh0.employee_id, (shiftWindow st day).1, (shiftWindow st day).2⟩ := by
      unfold setShiftTimes validate_end_time
      rw [if_neg (Nat.not_le.mpr hend)]
      simp [Nat.not_le.mpr hlt]
    refine ⟨setShiftTimes sh0 (shiftWindow st day).1 (shiftWindow st day).2,
      find?_overwriteFirst_mem _ _ store sh0 hfind, ?_, ?_, ?_⟩
    · rw [hset]
      exact hp.1.1
    · rw [hset, hw]
    · rw [hset, hw]

/-- Witness for the amended C10: the arbitrary label `Swing` resolves to
    the default 09:00-17:00 window. -/
theorem default_window_applied_witness :
    ∃ sh ∈ applyItem [⟨1, "Alice"⟩] [] ⟨some "Alice", some "2025-04-01", some "Swing"⟩,
      sh.employee_id = 1 ∧ sh.start_time = mkTime 739647 9 ∧
      sh.end_time = mkTime 739647 17 :=
  default_window_applied [⟨1, "Alice"⟩] []
    ⟨some "Alice", some "2025-04-01", some "Swing"⟩
    "Alice" "2025-04-01" "Swing" ⟨1, "Alice"⟩ 739647
    rfl (by decide) rfl rfl (by decide) (by decide) (by decide) (by decide)
    (by decide) (by decide) (by decide) (by simp)

/-! ## C2: the response interpreter is strict, not lenient -/

/-- Claim C2 is refuted on single-quoted literals: the interpreter hands
    the sliced substring to strict `json.loads`, so the single-quoted form
    of the array (the very shape the repository's own test feeds the
    route) fails to parse and yields the empty list, while the
    double-quoted form of the same content yields the object. -/
theorem lenient_parse_counterexample :
    extractScheduleUpdates
        "Here is the schedule:\n[\x7b\x27employee\x27: \x27Paul Rocco\x27, \x27date\x27: \x272025-04-01\x27, \x27shift_type\x27: \x27Afternoon\x27\x7d]" = [] ∧
    extractScheduleUpdates
        "Here is the schedule:\n[\x7b\"employee\": \"Paul Rocco\", \"date\": \"2025-04-01\", \"shift_type\": \"Afternoon\"\x7d]" =
      [.obj [("employee", .str "Paul Rocco"), ("date", .str "2025-04-01"),
        ("shift_type", .str "Afternoon")]] :=
  ⟨rfl, rfl⟩

/-- Claim C2 (amended): the interpreter slices the text between its first
    opening bracket and last closing bracket and parses the slice as
    *strict* JSON — double-quoted string literals only, single quotes are
    a parse failure — returning the parsed array on success and the empty
    list on a missing bracket pair or on any parse failure. -/
theorem strict_extraction (text : String) :
    (bracketSlice text.data = none → extractScheduleUpdates text = []) ∧
    (∀ cs, bracketSlice text.data = some cs → jsonLoads cs = none →
      extractScheduleUpdates text = []) ∧
    (∀ cs elems, bracketSlice text.data = some cs →
      jsonLoads cs = some (JValue.arr elems) → extractScheduleUpdates text = elems) ∧
    jsonLoads "[\x27a\x27]".data = none ∧
    jsonLoads "[\"a\"]".data = some (JValue.arr [JValue.str "a"]) := by
  refine ⟨?_, ?_, ?_, rfl, rfl⟩
  · intro h
    simp [extractScheduleUpdates, h]
  · intro cs h1 h2
    simp [extractScheduleUpdates, h1, h2]
  · intro cs elems h1 h2
    simp [extractScheduleUpdates, h1, h2]

/-- Witness for the amended C2: bracketless text yields the empty list. -/
theorem strict_extraction_witness :
    extractScheduleUpdates "the model declined to answer" = [] :=
  (strict_extraction "the model declined to answer").1 rfl

/-! ## C3: the date extraction can raise -/

/-- Claim C3 is contradicted by the code of `extract_dates` (nlu.py 97):
    on text with no recognizable date the external date search returns
    `None`, and the `list(...)` wrapper raises `TypeError` instead of the
    documented `(None, None)`; the `this month` fast path, for contrast,
    returns normally.  The function's own docstring and its dead
    `return None, None` fallback show the never-throws contract is the
    intent, so this is a slip in the code. -/
theorem extract_dates_raises_on_no_match :
    extract_dates (fun _ => none) ⟨2026, 10, 12⟩ "Is anyone free to cover the desk?" =
      .error "TypeError: NoneType object is not iterable" ∧
    extract_dates (fun _ => none) ⟨2026, 10, 12⟩ "Who works this month?" =
      .ok (some ⟨2026, 10, 1⟩, some ⟨2026, 10, 31⟩) :=
  ⟨rfl, rfl⟩

/-! ## C4: mutation commit failure is rolled back but not surfaced -/

/-- The completion text of the demonstration environments below. -/
def approvedAnswerText : String :=
  "Approved. [\x7b\"employee\": \"Alice\", \"date\": \"2025-04-01\", \"shift_type\": \"Afternoon\"\x7d]"

/-- A route environment whose generation succeeds with a one-item
    change-list and whose final mutation commit fails. -/
def commitFailEnv : RouteEnv :=
  { userQuery := "Please schedule Alice for the afternoon of April 1."
    scheduleContext := "Context: Schedule Information for April 01, 2025"
    policyResult := .ok ["Policy: none."]
    genResult := .ok approvedAnswerText
    logCommitOk := true
    mutationCommitOk := false
    emps := [⟨1, "Alice"⟩]
    store := [] }

/-- Claim C4 is refuted on its surfacing half: with a failing final commit
    the batch is rolled back — the store is unchanged — but the route still
    replies HTTP 200; no internal error reaches the caller.  The last
    conjunct shows the batch is not vacuous: with a succeeding commit the
    same request stores one entry. -/
theorem commit_failure_not_surfaced_counterexample :
    (queryOllamaAfterContext commitFailEnv).status = 200 ∧
    (queryOllamaAfterContext commitFailEnv).finalStore = [] ∧
    (queryOllamaAfterContext commitFailEnv).scheduleUpdates.length = 1 ∧
    (queryOllamaAfterContext
      { commitFailEnv with mutationCommitOk := true }).finalStore.length = 1 :=
  ⟨rfl, rfl, rfl, rfl⟩

/-- Claim C4 (amended): if the final commit of a batch fails, the entire
    batch is rolled back and the calendar store is left unchanged, but the
    failure is logged and swallowed: the request still returns HTTP 200
    with the answer text — it is not surfaced as an internal error. -/
theorem commit_failure_rolls_back_returns_success (env : RouteEnv) (t : String)
    (hgen : env.genResult = .ok t) (hfail : env.mutationCommitOk = false) :
    (queryOllamaAfterContext env).finalStore = env.store ∧
    (queryOllamaAfterContext env).status = 200 ∧
    (queryOllamaAfterContext env).answer = some (normalizeAnswer t) := by
  refine ⟨?_, ?_, ?_⟩ <;> simp [queryOllamaAfterContext, hgen, hfail]

/-- Witness for the amended C4. -/
theorem commit_failure_rolls_back_returns_success_witness :
    (queryOllamaAfterContext commitFailEnv).finalStore = commitFailEnv.store ∧
    (queryOllamaAfterContext commitFailEnv).status = 200 ∧
    (queryOllamaAfterContext commitFailEnv).answer =
      some (normalizeAnswer approvedAnswerText) :=
  commit_failure_rolls_back_returns_success commitFailEnv approvedAnswerText rfl rfl

/-! ## C5: the interaction record is written before interpretation -/

/-- The completion text of the C5 demonstration environment. -/
def confirmedAnswerText : String :=
  "Confirmed. [\x7b\"employee\": \"Bob\", \"date\": \"2025-04-02\", \"shift_type\": \"Night\"\x7d]"

/-- A route environment whose generation succeeds and whose change-list is
    non-empty. -/
def logOrderEnv : RouteEnv :=
  { userQuery := "Dana called off, replace her with Bob."
    scheduleContext := "Context"
    policyResult := .ok []
    genResult := .ok confirmedAnswerText
    logCommitOk := true
    mutationCommitOk := true
    emps := [⟨2, "Bob"⟩]
    store := [] }

/-- Claim C5 is refuted: in the route the interaction record is appended
    right after generation and *before* the change-list is extracted or
    any mutation applied — the log step precedes the interpret step in the
    trace, where the claim requires it to come after interpretation and
    mutation. -/
theorem log_before_interpret_counterexample :
    (queryOllamaAfterContext logOrderEnv).trace =
      [.policySearch, .generate, .logInteraction, .interpret, .mutate, .respond] ∧
    (queryOllamaAfterContext logOrderEnv).trace.indexOf Step.logInteraction <
      (queryOllamaAfterContext logOrderEnv).trace.indexOf Step.interpret := by
  have h : (queryOllamaAfterContext logOrderEnv).trace =
      [.policySearch, .generate, .logInteraction, .interpret, .mutate, .respond] := rfl
  refine ⟨h, ?_⟩
  rw [h]
  decide

/-- Claim C5 (amended): for every request whose generation succeeds the
    order is Interaction Log append, then Response Interpreter, then
    (conditionally) Mutation Applier, then the reply: the record is
    written before the change-list is extracted. -/
theorem pipeline_order (env : RouteEnv) (t : String)
    (hgen : env.genResult = .ok t) :
    (queryOllamaAfterContext env).trace =
      [.policySearch, .generate, .logInteraction, .interpret, .respond] ∨
    (queryOllamaAfterContext env).trace =
      [.policySearch, .generate, .logInteraction, .interpret, .mutate, .respond] := by
  by_cases h : (extractScheduleUpdates (normalizeAnswer t)).isEmpty
  · left
    simp [queryOllamaAfterContext, hgen, h]
  · right
    simp [queryOllamaAfterContext, hgen, h]

/-- Witness for the amended C5. -/
theorem pipeline_order_witness :
    (queryOllamaAfterContext logOrderEnv).trace =
      [.policySearch, .generate, .logInteraction, .interpret, .respond] ∨
    (queryOllamaAfterContext logOrderEnv).trace =
      [.policySearch, .generate, .logInteraction, .interpret, .mutate, .respond] :=
  pipeline_order logOrderEnv confirmedAnswerText rfl

/-! ## C7: policy-context failure degrades to an empty string -/

/-- Claim C7: any failure of the policy-context sub-operation is caught and
    converted to an empty policy-context string, the prompt is built from
    the unchanged calendar context and the empty policy section, and on
    generation success the request still completes with HTTP 200 and an
    answer. -/
theorem policy_failure_degrades (env : RouteEnv) (err : String) (t : String)
    (hpol : env.policyResult = .error err) (hgen : env.genResult = .ok t) :
    policyContextOf env.policyResult = "" ∧
    (queryOllamaAfterContext env).prompt =
      build_augmented_prompt env.scheduleContext "" env.userQuery ∧
    (queryOllamaAfterContext env).status = 200 ∧
    (queryOllamaAfterContext env).answer = some (normalizeAnswer t) := by
  refine ⟨by rw [hpol]; rfl, ?_, ?_, ?_⟩ <;>
    simp [queryOllamaAfterContext, hgen, hpol, policyContextOf]

/-- A route environment whose policy search raises, mirroring the
    repository's own failure-injection test. -/
def policyFailEnv : RouteEnv :=
  { userQuery := "What are the overtime rules for April?"
    scheduleContext := "Context: Schedule Information for April 2025"
    policyResult := .error "Policy search failed"
    genResult := .ok "AI response with failed policy context."
    logCommitOk := true
    mutationCommitOk := true
    emps := []
    store := [] }

/-- Witness for C7. -/
theorem policy_failure_degrades_witness :
    policyContextOf policyFailEnv.policyResult = "" ∧
    (queryOllamaAfterContext policyFailEnv).prompt =
      build_augmented_prompt policyFailEnv.scheduleContext "" policyFailEnv.userQuery ∧
    (queryOllamaAfterContext policyFailEnv).status = 200 ∧
    (queryOllamaAfterContext policyFailEnv).answer =
      some (normalizeAnswer "AI response with failed policy context.") :=
  policy_failure_degrades policyFailEnv "Policy search failed"
    "AI response with failed policy context." rfl rfl

/-! ## C9: the month leaderboard names exactly the maximum-count employees -/

theorem lookup_pair_cons {β : Type} (k m : String) (c : β) (es : List (String × β)) :
    ((k, c) :: es).lookup m = if k = m then some c else es.lookup m := by
  by_cases h : k = m
  · simp [List.lookup_cons, h]
  · simp [List.lookup_cons, beq_eq_false_iff_ne.mpr (Ne.symm h), h]

theorem lookup_addName (n m : String) :
    ∀ acc : List (String × Nat),
      (addName acc n).lookup m =
        if m = n then some (((acc.lookup n).getD 0) + 1) else acc.lookup m
  | [] => by
    by_cases h : m = n
    · subst h
      simp [addName, lookup_pair_cons]
    · have h' : ¬ n = m := fun hh => h hh.symm
      simp [addName, lookup_pair_cons, h, h']
  | (k, c) :: acc => by
    by_cases hk : k = n
    · subst hk
      simp only [addName, eq_self_iff_true, if_true]
      by_cases hm : m = k
      · subst hm
        simp [lookup_pair_cons]
      · have hm' : ¬ k = m := fun hh => hm hh.symm
        simp [lookup_pair_cons, hm, hm']
    · simp only [addName, if_neg hk]
      by_cases hm : k = m
      · subst hm
        have hmn : ¬ k = n := hk
        simp [lookup_pair_cons, hmn]
      · rw [lookup_pair_cons, if_neg hm, lookup_addName n m acc,
          lookup_pair_cons, if_neg hk, lookup_pair_cons, if_neg hm]

theorem lookup_foldl_addName (m : String) :
    ∀ (names : List String) (acc : List (String × Nat)),
      (((names.foldl addName acc).lookup m).getD 0 =
        (acc.lookup m).getD 0 + names.count m) ∧
      (((names.foldl addName acc).lookup m).isSome =
        ((acc.lookup m).isSome || names.contains m))
  | [], acc => by simp
  | n :: ns, acc => by
    have ih := lookup_foldl_addName m ns (addName acc n)
    rw [List.foldl_cons]
    constructor
    · rw [ih.1, lookup_addName n m acc, List.count_cons]
      by_cases h : m = n
      · subst h
        simp only [if_pos rfl, Option.getD_some, beq_self_eq_true, if_true]
        omega
      · have h' : (n == m) = false := beq_eq_false_iff_ne.mpr (fun hh => h hh.symm)
        simp [if_neg h, h']
    · rw [ih.2, lookup_addName n m acc, List.contains_cons]
      by_cases h : m = n
      · subst h
        simp
      · have h' : (m == n) = false := beq_eq_false_iff_ne.mpr h
        simp [if_neg h, h']

theorem empSummary_lookup_count (names : List String) (m : String) :
    ((empSummary names).lookup m).getD 0 = names.count m := by
  have h := (lookup_foldl_addName m names []).1
  simpa [empSummary] using h

theorem empSummary_isSome (names : List String) (m : String) :
    ((empSummary names).lookup m).isSome = true ↔ m ∈ names := by
  have h := (lookup_foldl_addName m names []).2
  rw [show empSummary names = names.foldl addName [] from rfl, h]
  simp

theorem mem_keys_addName (n m : String) :
    ∀ acc : List (String × Nat),
      (m ∈ (addName acc n).map Prod.fst) ↔ (m ∈ acc.map Prod.fst ∨ m = n)
  | [] => by simp [addName]
  | (k, c) :: acc => by
    by_cases hk : k = n
    · subst hk
      simp only [addName, eq_self_iff_true, if_true, List.map_cons, List.mem_cons]
      tauto
    · simp only [addName, if_neg hk, List.map_cons, List.mem_cons]
      rw [mem_keys_addName n m acc]
      tauto

theorem nodup_keys_addName (n : String) :
    ∀ acc : List (String × Nat),
      (acc.map Prod.fst).Nodup → ((addName acc n).map Prod.fst).Nodup
  | [] => by simp [addName]
  | (k, c) :: acc => by
    intro h
    simp only [List.map_cons, List.nodup_cons] at h
    by_cases hk : k = n
    · subst hk
      simp only [addName, eq_self_iff_true, if_true, List.map_cons, List.nodup_cons]
      exact h
    · simp only [addName, if_neg hk, List.map_cons, List.nodup_cons]
      refine ⟨?_, nodup_keys_addName n acc h.2⟩
      rw [mem_keys_addName]
      rintro (hmem | rfl)
      · exact h.1 hmem
      · exact hk rfl

theorem nodup_keys_empSummary (names : List String) :
    ((empSummary names).map Prod.fst).Nodup := by
  suffices h : ∀ (ns : List String) (acc : List (String × Nat)),
      (acc.map Prod.fst).Nodup → ((ns.foldl addName acc).map Prod.fst).Nodup by
    exact h names [] (by simp)
  intro ns
  induction ns with
  | nil => exact fun acc h => h
  | cons n ns ih => exact fun acc h => ih (addName acc n) (nodup_keys_addName n acc h)

theorem mem_iff_lookup_of_nodup {β : Type} (m : String) (c : β) :
    ∀ l : List (String × β), (l.map Prod.fst).Nodup →
      ((m, c) ∈ l ↔ l.lookup m = some c)
  | [] => by simp
  | (k, v) :: l => by
    intro h
    simp only [List.map_cons, List.nodup_cons] at h
    rw [lookup_pair_cons]
    by_cases hk : k = m
    · subst hk
      rw [if_pos rfl]
      constructor
      · intro hmem
        rcases List.mem_cons.mp hmem with heq | hmem'
        · rw [(Prod.mk.injEq _ _ _ _).mp heq.symm |>.2]
        · exact absurd (List.mem_map.mpr ⟨(k, c), hmem', rfl⟩) h.1
      · intro hl
        injection hl with hl
        exact hl ▸ List.mem_cons_self (k, v) l
    · rw [if_neg hk]
      constructor
      · intro hmem
        rcases List.mem_cons.mp hmem with heq | hmem'
        · exact absurd ((Prod.mk.injEq _ _ _ _).mp heq).1.symm hk
        · exact (mem_iff_lookup_of_nodup m c l h.2).mp hmem'
      · intro hl
        exact List.mem_cons_of_mem _ ((mem_iff_lookup_of_nodup m c l h.2).mpr hl)

theorem mem_empSummary (names : List String) (n : String) (c : Nat) :
    (n, c) ∈ empSummary names ↔ (n ∈ names ∧ c = names.count n) := by
  rw [mem_iff_lookup_of_nodup n c (empSummary names) (nodup_keys_empSummary names)]
  constructor
  · intro h
    have hs : ((empSummary names).lookup n).isSome = true := by
      rw [h]; rfl
    have hc := empSummary_lookup_count names n
    rw [h] at hc
    exact ⟨(empSummary_isSome names n).mp hs, by simpa using hc⟩
  · rintro ⟨hm, rfl⟩
    have hs := (empSummary_isSome names n).mpr hm
    rcases Option.isSome_iff_exists.mp hs with ⟨c', hc'⟩
    have hc := empSummary_lookup_count names n
    rw [hc'] at hc
    simp only [Option.getD_some] at hc
    rw [hc', hc]

theorem le_foldl_max : ∀ (l : List Nat) (a : Nat), a ≤ l.foldl Nat.max a
  | [], a => Nat.le_refl a
  | x :: l, a => Nat.le_trans (Nat.le_max_left a x) (le_foldl_max l (Nat.max a x))

theorem mem_le_foldl_max : ∀ (l : List Nat) (a x : Nat), x ∈ l → x ≤ l.foldl Nat.max a
  | [], _, x => by intro h; cases h
  | y :: l, a, x => by
    intro h
    rcases List.mem_cons.mp h with rfl | h'
    · exact Nat.le_trans (Nat.le_max_right a x) (le_foldl_max l (Nat.max a x))
    · exact mem_le_foldl_max l (Nat.max a y) x h'

theorem nat_max_choice (a b : Nat) : Nat.max a b = a ∨ Nat.max a b = b := by
  rcases Nat.le_total a b with h | h
  · exact Or.inr (Nat.max_eq_right h)
  · exact Or.inl (Nat.max_eq_left h)

theorem foldl_max_mem : ∀ (l : List Nat) (a : Nat),
    l.foldl Nat.max a = a ∨ l.foldl Nat.max a ∈ l
  | [], _ => Or.inl rfl
  | x :: l, a => by
    rw [List.foldl_cons]
    rcases foldl_max_mem l (Nat.max a x) with h | h
    · rcases nat_max_choice a x with ha | hx
      · exact Or.inl (by rw [h, ha])
      · exact Or.inr (by rw [h, hx]; exact List.mem_cons_self x l)
    · exact Or.inr (List.mem_cons_of_mem x h)

/-- Claim C9: over a non-empty list of month-window shift records
    (rendered to their per-shift employee names), the `top_emps` list the
    leaderboard line interpolates contains exactly the employees whose
    per-employee shift count equals the maximum count over all employees
    in the window; the maximum is attained, so a unique maximum names one
    employee and ties name all tied employees. -/
theorem month_leaderboard (names : List String) (hne : names ≠ []) :
    (∀ n, n ∈ topEmps (empSummary names) ↔
      (n ∈ names ∧ names.count n = maxShiftCount (empSummary names))) ∧
    (∀ n, n ∈ names → names.count n ≤ maxShiftCount (empSummary names)) ∧
    (∃ n, n ∈ names ∧ names.count n = maxShiftCount (empSummary names)) := by
  have hcountmem : ∀ n, n ∈ names → (n, names.count n) ∈ empSummary names :=
    fun n hn => (mem_empSummary names n _).mpr ⟨hn, rfl⟩
  have hb : ∀ n, n ∈ names → names.count n ≤ maxShiftCount (empSummary names) := by
    intro n hn
    exact mem_le_foldl_max _ 0 _
      (List.mem_map.mpr ⟨(n, names.count n), hcountmem n hn, rfl⟩)
  refine ⟨?_, hb, ?_⟩
  · intro n
    constructor
    · intro h
      rcases List.mem_map.mp h with ⟨⟨n', c⟩, hmem, heq⟩
      rcases List.mem_filter.mp hmem with ⟨hmem', hfil⟩
      have hchar := (mem_empSummary names n' c).mp hmem'
      have hn' : n' = n := heq
      subst hn'
      refine ⟨hchar.1, ?_⟩
      have hcmax : c = maxShiftCount (empSummary names) := by simpa using hfil
      rw [← hchar.2, hcmax]
    · rintro ⟨hn, hmax⟩
      refine List.mem_map.mpr ⟨(n, names.count n), ?_, rfl⟩
      exact List.mem_filter.mpr ⟨hcountmem n hn, by simp [hmax]⟩
  · obtain ⟨n0, hn0⟩ : ∃ n0, n0 ∈ names := by
      cases names with
      | nil => exact absurd rfl hne
      | cons a l => exact ⟨a, List.mem_cons_self a l⟩
    have h1 : 1 ≤ names.count n0 := List.count_pos_iff.mpr hn0
    have hMpos : 1 ≤ maxShiftCount (empSummary names) := Nat.le_trans h1 (hb n0 hn0)
    rcases foldl_max_mem ((empSummary names).map Prod.snd) 0 with h | h
    · exfalso
      have hzero : maxShiftCount (empSummary names) = 0 := h
      omega
    · rcases List.mem_map.mp h with ⟨⟨n1, c1⟩, hmem, hval⟩
      have hchar := (mem_empSummary names n1 c1).mp hmem
      exact ⟨n1, hchar.1, hchar.2 ▸ hval⟩

/-- Witness for C9: `A` leads the window `[A, B, A]` with two shifts. -/
theorem month_leaderboard_witness :
    ("A" ∈ topEmps (empSummary ["A", "B", "A"]) ↔
      ("A" ∈ (["A", "B", "A"] : List String) ∧
        (["A", "B", "A"] : List String).count "A" =
          maxShiftCount (empSummary ["A", "B", "A"]))) ∧
    ("B" ∈ (["A", "B", "A"] : List String) →
      (["A", "B", "A"] : List String).count "B" ≤
        maxShiftCount (empSummary ["A", "B", "A"])) :=
  ⟨(month_leaderboard ["A", "B", "A"] (by decide)).1 "A",
   (month_leaderboard ["A", "B", "A"] (by decide)).2.1 "B"⟩

end SchedulingAi
